import Mathlib

/-!
Verification of the Personalized-Interaction-Agent demo service.

Shallow embedding of the repository's Python modules:
* `agent/utils.py`   : `validate_user_data`, `parse_date`, `days_since_last_active`,
                       `format_recommendation_output`
* `agent/agent.py`   : `PersonalizedAgent.recommend`
* `kumo/kumo_client.py` : `KumoClient.predict` (randomness made explicit parameters)
* `app/main.py`      : the `GET /recommend/<user_id>` endpoint

Python dictionaries are modelled as association lists `List (String × Value)`
(first match wins, as for a dict with distinct keys); Python floats are modelled
as exact rationals; an exception is an `Except.error` carrying the message.
-/

/-- A Python value stored in one of the service's dictionaries. -/
inductive Value where
  | int (n : Int)
  | str (s : String)
  | num (q : ℚ)
deriving DecidableEq

/-- `d[k]` on a Python dict: the value when the key is present,
a `KeyError` carrying the key otherwise. -/
def dictGet (d : List (String × Value)) (k : String) : Except String Value :=
  match List.lookup k d with
  | some v => Except.ok v
  | none => Except.error ("KeyError: " ++ k)

/-- `v > c` for a Python value against a float constant: defined for numbers,
a `TypeError` for strings. -/
def valGt (v : Value) (c : ℚ) : Except String Bool :=
  match v with
  | Value.num q => Except.ok (decide (c < q))
  | Value.int n => Except.ok (decide (c < (n : ℚ)))
  | Value.str _ => Except.error "TypeError"

/-! ## `agent/agent.py` — `PersonalizedAgent.recommend`

The call `self.kumo.predict(user_data)` is made explicit: the prediction
dictionary returned by the Kumo client is a parameter.  Evaluation order
follows the source: the conditional expression first reads
`prediction["engagement_score"]`, compares it with `0.7`, and only when the
comparison holds reads `prediction["recommended_action"]`; finally
`user_data["user_id"]` is read while building the result dict. -/
def recommend (prediction user_data : List (String × Value)) :
    Except String (List (String × Value)) :=
  match dictGet prediction "engagement_score" with
  | Except.error e => Except.error e
  | Except.ok sv =>
    match valGt sv (7/10) with
    | Except.error e => Except.error e
    | Except.ok gt =>
      match (if gt then dictGet prediction "recommended_action"
             else Except.ok (Value.str "send_message")) with
      | Except.error e => Except.error e
      | Except.ok action =>
        match dictGet user_data "user_id" with
        | Except.error e => Except.error e
        | Except.ok uid =>
          Except.ok [("user_id", uid), ("action", action), ("score", sv)]

/-! ## `agent/utils.py` — `validate_user_data` -/

/-- The `required_fields` list of `validate_user_data`. -/
def required_fields : List String :=
  ["user_id", "age", "gender", "last_active", "interactions", "purchases"]

/-- The `for field in required_fields` loop: returns `false` on the first
missing key. -/
def checkFields (user_data : List (String × Value)) : List String → Bool
  | [] => true
  | f :: fs =>
    if List.lookup f user_data = none then false else checkFields user_data fs

/-- `validate_user_data` from `agent/utils.py`. -/
def validate_user_data (user_data : List (String × Value)) : Bool :=
  checkFields user_data required_fields

/-! ## Rounding

Python's built-in `round(x, 2)` rounds to 2 decimal places with ties going to
the even last digit (banker's rounding).  `rhe` is round-half-to-even of a
rational to an integer, `round2` the 2-decimal-place version. -/

/-- Round-half-to-even of a rational to an integer. -/
def rhe (x : ℚ) : ℤ :=
  if x - (⌊x⌋ : ℚ) < 1/2 then ⌊x⌋
  else if 1/2 < x - (⌊x⌋ : ℚ) then ⌊x⌋ + 1
  else if ⌊x⌋ % 2 = 0 then ⌊x⌋ else ⌊x⌋ + 1

/-- Python's `round(x, 2)` on the exact rational value. -/
def round2 (x : ℚ) : ℚ := ((rhe (100 * x) : ℤ) : ℚ) / 100

theorem rhe_eq_floor_or_succ (x : ℚ) : rhe x = ⌊x⌋ ∨ rhe x = ⌊x⌋ + 1 := by
  unfold rhe
  split
  · exact Or.inl rfl
  · split
    · exact Or.inr rfl
    · split
      · exact Or.inl rfl
      · exact Or.inr rfl

theorem rhe_nonneg {x : ℚ} (hx : 0 ≤ x) : 0 ≤ rhe x := by
  have hf : (0 : ℤ) ≤ ⌊x⌋ := Int.floor_nonneg.mpr hx
  rcases rhe_eq_floor_or_succ x with h | h <;> omega

theorem rhe_le_of_le {x : ℚ} {n : ℤ} (hx : x ≤ (n : ℚ)) : rhe x ≤ n := by
  have hf : ⌊x⌋ ≤ n := by
    have := Int.floor_le_floor hx
    simpa using this
  rcases lt_or_eq_of_le hf with h | h
  · rcases rhe_eq_floor_or_succ x with he | he <;> omega
  · -- `⌊x⌋ = n` and `x ≤ n` force `x = n`, so the fractional part is `0`
    have hxn : x = (n : ℚ) := le_antisymm hx (by rw [← h]; exact Int.floor_le x)
    subst hxn
    simp [rhe]

theorem abs_rhe_sub_le (x : ℚ) : |(rhe x : ℚ) - x| ≤ 1/2 := by
  have hfl : (⌊x⌋ : ℚ) ≤ x := Int.floor_le x
  have hfu : x < (⌊x⌋ : ℚ) + 1 := Int.lt_floor_add_one x
  unfold rhe
  split
  · rw [abs_sub_comm, abs_of_nonneg (by linarith)]
    linarith [show x - (⌊x⌋ : ℚ) < 1/2 from by assumption]
  · rename_i h1
    push_neg at h1
    split
    · push_cast
      rw [abs_of_nonneg (by linarith)]
      linarith [show (1:ℚ)/2 < x - (⌊x⌋ : ℚ) from by assumption]
    · rename_i h2
      push_neg at h2
      have heq : x - (⌊x⌋ : ℚ) = 1/2 := le_antisymm h2 h1
      split
      · rw [abs_sub_comm, abs_of_nonneg (by linarith)]
        linarith
      · push_cast
        rw [abs_of_nonneg (by linarith)]
        linarith

theorem round2_nonneg {x : ℚ} (hx : 0 ≤ x) : 0 ≤ round2 x := by
  unfold round2
  have : (0 : ℤ) ≤ rhe (100 * x) := rhe_nonneg (by positivity)
  positivity

theorem round2_le_one {x : ℚ} (hx : x ≤ 1) : round2 x ≤ 1 := by
  unfold round2
  have h100 : 100 * x ≤ ((100 : ℤ) : ℚ) := by push_cast; linarith
  have := rhe_le_of_le h100
  rw [div_le_one (by norm_num)]
  exact_mod_cast this

theorem round2_isMultiple (x : ℚ) : ∃ k : ℤ, round2 x = (k : ℚ) / 100 :=
  ⟨rhe (100 * x), rfl⟩

theorem abs_round2_sub_le (x : ℚ) : |round2 x - x| ≤ 1/200 := by
  have h := abs_rhe_sub_le (100 * x)
  unfold round2
  have hrw : ((rhe (100 * x) : ℤ) : ℚ) / 100 - x
      = (((rhe (100 * x) : ℤ) : ℚ) - 100 * x) / 100 := by ring
  rw [hrw, abs_div, abs_of_pos (show (0:ℚ) < 100 by norm_num)]
  linarith

/-! ## `agent/utils.py` — `format_recommendation_output` -/

/-- `format_recommendation_output` from `agent/utils.py`.  Note the source
stores the rounded score under the key `"engagement_score"`. -/
def format_recommendation_output (user_id : Int) (action : String) (score : ℚ) :
    List (String × Value) :=
  [("user_id", Value.int user_id),
   ("action", Value.str action),
   ("engagement_score", Value.num (round2 score))]

/-! ## `kumo/kumo_client.py` — `KumoClient.predict`

The two random draws are made explicit parameters: `u` is the value of
`random.uniform(0, 1)` and `choice` the index drawn by `random.choice`. -/

/-- The fixed action list passed to `random.choice`. -/
def actionChoices : List String :=
  ["offer_discount", "recommend_product", "send_message"]

/-- `KumoClient.predict` with the randomness explicit. -/
def predict (u : ℚ) (choice : Fin 3) (user_features : List (String × Value)) :
    List (String × Value) :=
  [("engagement_score", Value.num (round2 u)),
   ("recommended_action", Value.str (actionChoices.get ⟨choice.val, choice.isLt⟩))]

/-! ## `agent/agent.py` with the record state threaded explicitly

`recommend_withState` mirrors `recommend` statement by statement, but every
dictionary operation also returns the user record as it stands afterwards;
since the source only ever reads `user_data`, each step passes it through. -/

/-- A dictionary read: returns the value (or `KeyError`) and the dictionary,
which a read leaves untouched. -/
def readKey (k : String) (st : List (String × Value)) :
    Except String Value × List (String × Value) :=
  (dictGet st k, st)

/-- `PersonalizedAgent.recommend` with the `user_data` dictionary threaded as
explicit state. -/
def recommend_withState (prediction user_data : List (String × Value)) :
    Except String (List (String × Value)) × List (String × Value) :=
  match readKey "engagement_score" prediction with
  | (Except.error e, _) => (Except.error e, user_data)
  | (Except.ok sv, _) =>
    match valGt sv (7/10) with
    | Except.error e => (Except.error e, user_data)
    | Except.ok gt =>
      match (if gt then readKey "recommended_action" prediction
             else (Except.ok (Value.str "send_message"), prediction)) with
      | (Except.error e, _) => (Except.error e, user_data)
      | (Except.ok action, _) =>
        match readKey "user_id" user_data with
        | (Except.error e, ud) => (Except.error e, ud)
        | (Except.ok uid, ud) =>
          (Except.ok [("user_id", uid), ("action", action), ("score", sv)], ud)

/-! # Claims about the recommendation engine, validator, formatter, client -/

/-- **C1**: for a prediction carrying a numeric `engagement_score` and a
`recommended_action`, and a record carrying `user_id`, `recommend` selects the
prediction's `recommended_action` exactly when the score is strictly greater
than `0.7` and `"send_message"` otherwise; in particular a score of exactly
`0.7` yields `"send_message"`. -/
theorem claim1_decision_rule (p u : List (String × Value)) (q : ℚ) (a uidv : Value)
    (hs : List.lookup "engagement_score" p = some (Value.num q))
    (ha : List.lookup "recommended_action" p = some a)
    (hu : List.lookup "user_id" u = some uidv) :
    recommend p u =
      Except.ok [("user_id", uidv),
        ("action", if 7/10 < q then a else Value.str "send_message"),
        ("score", Value.num q)] ∧
    (q = 7/10 →
      recommend p u =
        Except.ok [("user_id", uidv), ("action", Value.str "send_message"),
          ("score", Value.num q)]) := by
  have hmain : recommend p u =
      Except.ok [("user_id", uidv),
        ("action", if 7/10 < q then a else Value.str "send_message"),
        ("score", Value.num q)] := by
    unfold recommend dictGet valGt
    rw [hs]
    by_cases h : (7:ℚ)/10 < q
    · simp [h, ha, hu]
    · simp [h, hu]
  refine ⟨hmain, fun hq => ?_⟩
  rw [hmain, hq]
  norm_num

/-- Witness for C1 at concrete inputs: a score of `0.8` keeps the proposed
action, and a score of exactly `0.7` falls back to `"send_message"`. -/
theorem claim1_decision_rule_witness :
    recommend
        [("engagement_score", Value.num (8/10)),
         ("recommended_action", Value.str "offer_discount")]
        [("user_id", Value.int 1)] =
      Except.ok [("user_id", Value.int 1),
        ("action", Value.str "offer_discount"),
        ("score", Value.num (8/10))] ∧
    recommend
        [("engagement_score", Value.num (7/10)),
         ("recommended_action", Value.str "offer_discount")]
        [("user_id", Value.int 1)] =
      Except.ok [("user_id", Value.int 1),
        ("action", Value.str "send_message"),
        ("score", Value.num (7/10))] := by
  constructor
  · have h := (claim1_decision_rule
      [("engagement_score", Value.num (8/10)),
       ("recommended_action", Value.str "offer_discount")]
      [("user_id", Value.int 1)] (8/10) (Value.str "offer_discount")
      (Value.int 1) rfl rfl rfl).1
    rw [h]
    norm_num
  · exact (claim1_decision_rule
      [("engagement_score", Value.num (7/10)),
       ("recommended_action", Value.str "offer_discount")]
      [("user_id", Value.int 1)] (7/10) (Value.str "offer_discount")
      (Value.int 1) rfl rfl rfl).2 rfl

/-- **C6**: the recommendation returned by `recommend` carries the record's
`user_id`, the decision-rule action, and the prediction's `engagement_score`
exactly, with no rounding applied. -/
theorem claim6_output_fields (p u : List (String × Value)) (q : ℚ) (a uidv : Value)
    (hs : List.lookup "engagement_score" p = some (Value.num q))
    (ha : List.lookup "recommended_action" p = some a)
    (hu : List.lookup "user_id" u = some uidv) :
    ∃ act : Value,
      recommend p u =
        Except.ok [("user_id", uidv), ("action", act), ("score", Value.num q)] ∧
      act = (if 7/10 < q then a else Value.str "send_message") := by
  refine ⟨if 7/10 < q then a else Value.str "send_message", ?_, rfl⟩
  unfold recommend dictGet valGt
  rw [hs]
  by_cases h : (7:ℚ)/10 < q
  · simp [h, ha, hu]
  · simp [h, hu]

/-- Witness for C6 at a concrete input: the score `0.73` is passed through
unrounded. -/
theorem claim6_output_fields_witness :
    ∃ act : Value,
      recommend
          [("engagement_score", Value.num (73/100)),
           ("recommended_action", Value.str "recommend_product")]
          [("user_id", Value.int 5)] =
        Except.ok [("user_id", Value.int 5), ("action", act),
          ("score", Value.num (73/100))] ∧
      act = (if 7/10 < (73:ℚ)/100 then Value.str "recommend_product"
             else Value.str "send_message") :=
  claim6_output_fields
    [("engagement_score", Value.num (73/100)),
     ("recommended_action", Value.str "recommend_product")]
    [("user_id", Value.int 5)] (73/100) (Value.str "recommend_product")
    (Value.int 5) rfl rfl rfl

/-- **C7 counterexample**: a prediction lacking `recommended_action` does not
make `recommend` fail when the engagement score is not above `0.7` — the call
succeeds with the `"send_message"` fallback, refuting the claim that a missing
`recommended_action` always raises. -/
theorem claim7_counterexample :
    List.lookup "recommended_action" [("engagement_score", Value.num (1/2))]
        = (none : Option Value) ∧
    recommend [("engagement_score", Value.num (1/2))] [("user_id", Value.int 1)]
      = Except.ok [("user_id", Value.int 1), ("action", Value.str "send_message"),
          ("score", Value.num (1/2))] := by
  constructor
  · rfl
  · unfold recommend dictGet valGt
    norm_num

/-- **C7 amended**: `recommend` fails with a `KeyError` when the record lacks
`user_id`, or the prediction lacks `engagement_score`, or the score is
strictly above `0.7` and the prediction lacks `recommended_action`; a missing
`recommended_action` with a score not above `0.7` is not an error. -/
theorem claim7_missing_field_errors (p u : List (String × Value)) :
    (List.lookup "engagement_score" p = none →
      recommend p u = Except.error "KeyError: engagement_score") ∧
    (∀ q : ℚ, List.lookup "engagement_score" p = some (Value.num q) →
      7/10 < q → List.lookup "recommended_action" p = none →
      recommend p u = Except.error "KeyError: recommended_action") ∧
    (∀ (q : ℚ) (a : Value),
      List.lookup "engagement_score" p = some (Value.num q) →
      (7/10 < q → List.lookup "recommended_action" p = some a) →
      List.lookup "user_id" u = none →
      recommend p u = Except.error "KeyError: user_id") := by
  refine ⟨fun hs => ?_, fun q hs hq ha => ?_, fun q a hs ha hu => ?_⟩
  · unfold recommend dictGet
    rw [hs]
    rfl
  · unfold recommend dictGet valGt
    rw [hs]
    simp [hq, ha]
  · unfold recommend dictGet valGt
    rw [hs]
    by_cases h : (7:ℚ)/10 < q
    · simp [h, ha h, hu]
    · simp [h, hu]

/-- Witness for the amended C7: each of the three missing-key situations at a
concrete input. -/
theorem claim7_missing_field_errors_witness :
    recommend [] [("user_id", Value.int 1)]
        = Except.error "KeyError: engagement_score" ∧
    recommend [("engagement_score", Value.num (8/10))] [("user_id", Value.int 1)]
        = Except.error "KeyError: recommended_action" ∧
    recommend [("engagement_score", Value.num (8/10)),
               ("recommended_action", Value.str "offer_discount")] []
        = Except.error "KeyError: user_id" := by
  refine ⟨(claim7_missing_field_errors [] [("user_id", Value.int 1)]).1 rfl,
    (claim7_missing_field_errors [("engagement_score", Value.num (8/10))]
      [("user_id", Value.int 1)]).2.1 (8/10) rfl (by norm_num) rfl,
    (claim7_missing_field_errors
      [("engagement_score", Value.num (8/10)),
       ("recommended_action", Value.str "offer_discount")] []).2.2 (8/10)
      (Value.str "offer_discount") rfl (fun _ => rfl) rfl⟩

/-- **C9**: `recommend` never mutates the input record: threading the record
through every dictionary operation of the source returns it unchanged, and the
state-threaded function computes the same result as `recommend`. -/
theorem claim9_no_mutation (p u : List (String × Value)) :
    (recommend_withState p u).2 = u ∧
    (recommend_withState p u).1 = recommend p u := by
  unfold recommend_withState recommend readKey
  rcases dictGet p "engagement_score" with e | sv
  · exact ⟨rfl, rfl⟩
  · try dsimp only
    rcases valGt sv (7/10) with e | gt
    · exact ⟨rfl, rfl⟩
    · try dsimp only
      rcases gt with _ | _
      · try dsimp only
        rcases dictGet u "user_id" with e | uid
        · exact ⟨rfl, rfl⟩
        · exact ⟨rfl, rfl⟩
      · try dsimp only
        rcases dictGet p "recommended_action" with e | a
        · exact ⟨rfl, rfl⟩
        · try dsimp only
          rcases dictGet u "user_id" with e | uid
          · exact ⟨rfl, rfl⟩
          · exact ⟨rfl, rfl⟩

/-- **C3**: `validate_user_data` returns `true` exactly when all six required
keys are present, whatever the associated values. -/
theorem claim3_validator (d : List (String × Value)) :
    validate_user_data d = true ↔
      ((List.lookup "user_id" d).isSome = true ∧
       (List.lookup "age" d).isSome = true ∧
       (List.lookup "gender" d).isSome = true ∧
       (List.lookup "last_active" d).isSome = true ∧
       (List.lookup "interactions" d).isSome = true ∧
       (List.lookup "purchases" d).isSome = true) := by
  rcases h1 : List.lookup "user_id" d with _ | v1 <;>
  rcases h2 : List.lookup "age" d with _ | v2 <;>
  rcases h3 : List.lookup "gender" d with _ | v3 <;>
  rcases h4 : List.lookup "last_active" d with _ | v4 <;>
  rcases h5 : List.lookup "interactions" d with _ | v5 <;>
  rcases h6 : List.lookup "purchases" d with _ | v6 <;>
  simp [validate_user_data, required_fields, checkFields, h1, h2, h3, h4, h5, h6]

/-- Witness for C3: a record with all six keys validates; dropping one key
invalidates. -/
theorem claim3_validator_witness :
    validate_user_data
        [("user_id", Value.int 1), ("age", Value.int 25),
         ("gender", Value.str "M"), ("last_active", Value.str "2025-08-10"),
         ("interactions", Value.int 15), ("purchases", Value.int 2)] = true ∧
    validate_user_data
        [("user_id", Value.int 1), ("age", Value.int 25),
         ("gender", Value.str "M"), ("last_active", Value.str "2025-08-10"),
         ("interactions", Value.int 15)] = false := by
  constructor
  · exact (claim3_validator _).mpr (by decide)
  · have h := claim3_validator
      [("user_id", Value.int 1), ("age", Value.int 25),
       ("gender", Value.str "M"), ("last_active", Value.str "2025-08-10"),
       ("interactions", Value.int 15)]
    revert h
    decide

/-- **C2 counterexample**: `format_recommendation_output 1 "send_message" 0.666`
has no `"score"` entry at all — the rounded value is stored under the key
`"engagement_score"` — refuting the claim that the `score` entry holds the
rounded score. -/
theorem claim2_counterexample :
    List.lookup "score" (format_recommendation_output 1 "send_message" (333/500))
        = (none : Option Value) ∧
    format_recommendation_output 1 "send_message" (333/500) =
      [("user_id", Value.int 1), ("action", Value.str "send_message"),
       ("engagement_score", Value.num (67/100))] := by
  constructor
  · rfl
  · show _ = _
    simp only [format_recommendation_output]
    norm_num [round2, rhe]

/-- **C2 amended**: `format_recommendation_output` passes `user_id` and
`action` through unchanged and stores the score rounded to exactly two decimal
places (round-half-to-even) under the key `"engagement_score"`; in particular
`0.666` is stored as `0.67`, and the halfway case `0.125` rounds to the even
digit `0.12`. -/
theorem claim2_formatter (uid : Int) (a : String) (sc : ℚ) :
    format_recommendation_output uid a sc =
      [("user_id", Value.int uid), ("action", Value.str a),
       ("engagement_score", Value.num (round2 sc))] ∧
    (∃ k : ℤ, round2 sc = (k : ℚ) / 100) ∧
    |round2 sc - sc| ≤ 1/200 ∧
    round2 (333/500) = 67/100 ∧
    round2 (1/8) = 12/100 := by
  exact ⟨rfl, round2_isMultiple sc, abs_round2_sub_le sc,
    by norm_num [round2, rhe], by norm_num [round2, rhe]⟩

/-- **C10**: for any draw of `random.uniform(0, 1)` and any choice index, the
mock client's prediction has exactly the keys `engagement_score` and
`recommended_action`; the score is a multiple of `1/100` inside `[0, 1]` and
the action one of the three enumerated strings. -/
theorem claim10_predict_shape (u : ℚ) (c : Fin 3) (f : List (String × Value))
    (h0 : 0 ≤ u) (h1 : u ≤ 1) :
    (predict u c f).map Prod.fst = ["engagement_score", "recommended_action"] ∧
    (∃ q : ℚ, List.lookup "engagement_score" (predict u c f)
        = some (Value.num q) ∧
      0 ≤ q ∧ q ≤ 1 ∧ ∃ k : ℤ, q = (k : ℚ) / 100) ∧
    (∃ a : String, List.lookup "recommended_action" (predict u c f)
        = some (Value.str a) ∧
      (a = "offer_discount" ∨ a = "recommend_product" ∨ a = "send_message")) := by
  refine ⟨rfl,
    ⟨round2 u, rfl, round2_nonneg h0, round2_le_one h1, round2_isMultiple u⟩,
    ⟨actionChoices.get ⟨c.val, c.isLt⟩, rfl, ?_⟩⟩
  fin_cases c <;> simp [actionChoices]

/-- Witness for C10 at a concrete draw. -/
theorem claim10_predict_shape_witness :
    (predict (1/2) 0 []).map Prod.fst
        = ["engagement_score", "recommended_action"] ∧
    (∃ q : ℚ, List.lookup "engagement_score" (predict (1/2) 0 [])
        = some (Value.num q) ∧
      0 ≤ q ∧ q ≤ 1 ∧ ∃ k : ℤ, q = (k : ℚ) / 100) ∧
    (∃ a : String, List.lookup "recommended_action" (predict (1/2) 0 [])
        = some (Value.str a) ∧
      (a = "offer_discount" ∨ a = "recommend_product" ∨ a = "send_message")) :=
  claim10_predict_shape (1/2) 0 [] (by norm_num) (by norm_num)

/-! ## `agent/utils.py` — the date utilities

`parse_date` wraps `datetime.strptime(date_str, "%Y-%m-%d").date()`.  CPython
matches the format with the regular expression
`(?P<Y>\d\d\d\d)-(?P<m>1[0-2]|0[1-9]|[1-9])-(?P<d>3[01]|[12]\d|0[1-9]|[1-9])`,
requires it to consume the whole string, and then builds a `date`, which
checks the calendar ranges; each failure is a `ValueError`, which `parse_date`
re-raises with the message `Invalid date format: <input>, expected YYYY-MM-DD`.
The date arithmetic (`date.today() - last_active`) is the difference of
proleptic-Gregorian ordinals; `date.today()` is an ambient input and becomes
an explicit `today` parameter. -/

/-- A calendar date (`datetime.date`). -/
structure Date where
  year : Nat
  month : Nat
  day : Nat
deriving DecidableEq

/-- Gregorian leap-year rule (`calendar.isleap` / `datetime._is_leap`). -/
def isLeap (y : Nat) : Bool :=
  decide (y % 4 = 0 ∧ (¬ y % 100 = 0 ∨ y % 400 = 0))

/-- Days in a month (`datetime._days_in_month`). -/
def daysInMonth (y m : Nat) : Nat :=
  if m = 2 then (if isLeap y then 29 else 28)
  else if m = 4 ∨ m = 6 ∨ m = 9 ∨ m = 11 then 30
  else 31

/-- Days in the year before the given month starts
(`datetime._days_before_month`). -/
def daysBeforeMonth (y m : Nat) : Nat :=
  (match m with
   | 1 => 0 | 2 => 31 | 3 => 59 | 4 => 90 | 5 => 120 | 6 => 151
   | 7 => 181 | 8 => 212 | 9 => 243 | 10 => 273 | 11 => 304 | _ => 334)
  + (if 2 < m ∧ isLeap y = true then 1 else 0)

/-- Days in a year. -/
def daysInYear (y : Nat) : Nat := if isLeap y then 366 else 365

/-- Days before January 1st of the given year
(`datetime._days_before_year`). -/
def daysBeforeYear (y : Nat) : Int :=
  365 * ((y - 1 : Nat) : Int) + (((y - 1) / 4 : Nat) : Int)
    - (((y - 1) / 100 : Nat) : Int) + (((y - 1) / 400 : Nat) : Int)

/-- The ranges `datetime.date` enforces on construction. -/
def validDate (y m d : Nat) : Bool :=
  decide (1 ≤ y ∧ y ≤ 9999 ∧ 1 ≤ m ∧ m ≤ 12 ∧ 1 ≤ d ∧ d ≤ daysInMonth y m)

/-- Proleptic-Gregorian ordinal of a date (`date.toordinal`); date
subtraction returns the difference of ordinals. -/
def toOrdinal (dt : Date) : Int :=
  daysBeforeYear dt.year + (daysBeforeMonth dt.year dt.month : Int) + (dt.day : Int)

/-- Python's `date` comparison: lexicographic on (year, month, day). -/
def dateLt (a b : Date) : Prop :=
  a.year < b.year ∨ (a.year = b.year ∧
    (a.month < b.month ∨ (a.month = b.month ∧ a.day < b.day)))

/-- Numeric value of a digit character. -/
def digitVal (c : Char) : Nat := c.toNat - 48

/-- The `%m` field of the strptime regex, `1[0-2]|0[1-9]|[1-9]`: one or two
digits denoting `1..12`; two digits are consumed whenever both characters are
digits (a lone-digit fallback would hit the following separator check). -/
def parseMonth : List Char → Option (Nat × List Char)
  | c1 :: c2 :: rest =>
    if c1.isDigit ∧ c2.isDigit then
      if 1 ≤ 10 * digitVal c1 + digitVal c2 ∧ 10 * digitVal c1 + digitVal c2 ≤ 12
      then some (10 * digitVal c1 + digitVal c2, rest)
      else none
    else if c1.isDigit ∧ 1 ≤ digitVal c1 then some (digitVal c1, c2 :: rest)
    else none
  | [c1] => if c1.isDigit ∧ 1 ≤ digitVal c1 then some (digitVal c1, []) else none
  | [] => none

/-- The `%d` field of the strptime regex, `3[01]|[12]\d|0[1-9]|[1-9]`, which
must also reach the end of the string (`unconverted data remains` otherwise):
one or two digits denoting `1..31`. -/
def parseDay : List Char → Option Nat
  | [c1] => if c1.isDigit ∧ 1 ≤ digitVal c1 then some (digitVal c1) else none
  | [c1, c2] =>
    if c1.isDigit ∧ c2.isDigit ∧ 1 ≤ 10 * digitVal c1 + digitVal c2 ∧
        10 * digitVal c1 + digitVal c2 ≤ 31
    then some (10 * digitVal c1 + digitVal c2)
    else none
  | _ => none

/-- The whole `%Y-%m-%d` regex: exactly four digits of year, a dash, the
month field, a dash, the day field, end of string. -/
def parseYMD : List Char → Option (Nat × Nat × Nat)
  | c1 :: c2 :: c3 :: c4 :: '-' :: rest =>
    if c1.isDigit ∧ c2.isDigit ∧ c3.isDigit ∧ c4.isDigit then
      match parseMonth rest with
      | some (m, '-' :: rest2) =>
        match parseDay rest2 with
        | some d =>
          some (1000 * digitVal c1 + 100 * digitVal c2 + 10 * digitVal c3
            + digitVal c4, m, d)
        | none => none
      | _ => none
    else none
  | _ => none

/-- `datetime.datetime.strptime(s, "%Y-%m-%d").date()`: regex match plus the
`date` constructor's range check. -/
def strptime_date (s : String) : Option Date :=
  match parseYMD s.data with
  | some (y, m, d) => if validDate y m d then some ⟨y, m, d⟩ else none
  | none => none

/-- `parse_date` from `agent/utils.py`. -/
def parse_date (s : String) : Except String Date :=
  match strptime_date s with
  | some d => Except.ok d
  | none =>
    Except.error ("Invalid date format: " ++ s ++ ", expected YYYY-MM-DD")

/-- `days_since_last_active` from `agent/utils.py`, with `date.today()` an
explicit parameter. -/
def days_since_last_active (today : Date) (last_active_date : String) :
    Except String Int :=
  match parse_date last_active_date with
  | Except.ok last_active => Except.ok (toOrdinal today - toOrdinal last_active)
  | Except.error e => Except.error e

/-! ## A declarative view of the accepted date strings

`splitDash` splits a character list at every `'-'`; `lenientYMD` recognises,
declaratively, exactly the strings `strptime` accepts for `%Y-%m-%d`
(four year digits, one or two month digits, one or two day digits, a valid
calendar date); `strictYMD` is the zero-padded shape the specification's
`YYYY-MM-DD` notation denotes. -/

/-- Split a character list at every dash. -/
def splitDash : List Char → List (List Char)
  | [] => [[]]
  | c :: rest =>
    if c = '-' then [] :: splitDash rest
    else
      match splitDash rest with
      | g :: gs => (c :: g) :: gs
      | [] => [[c]]

/-- Rejoin groups with dashes (left inverse of `splitDash`). -/
def joinDash : List (List Char) → List Char
  | [] => []
  | [g] => g
  | g :: gs => g ++ '-' :: joinDash gs

/-- Decimal value of a digit string. -/
def digitsVal (cs : List Char) : Nat :=
  cs.foldl (fun acc c => 10 * acc + digitVal c) 0

/-- All characters are ASCII digits. -/
def allDigits (cs : List Char) : Bool := cs.all Char.isDigit

/-- The strings accepted by `strptime` with format `%Y-%m-%d`: exactly three
dash-separated digit groups of widths `4`, `1..2`, `1..2` denoting a valid
calendar date. -/
def lenientChars : List Char → Bool := fun cs =>
  match splitDash cs with
  | [ys, ms, ds] =>
    decide (ys.length = 4) && allDigits ys &&
    (decide (ms.length = 1) || decide (ms.length = 2)) && allDigits ms &&
    (decide (ds.length = 1) || decide (ds.length = 2)) && allDigits ds &&
    validDate (digitsVal ys) (digitsVal ms) (digitsVal ds)
  | _ => false

/-- String version of `lenientChars`. -/
def lenientYMD (s : String) : Bool := lenientChars s.data

/-- Modelled from the spec: the strict `YYYY-MM-DD` shape — four year digits,
a dash, exactly two month digits, a dash, exactly two day digits, denoting a
valid calendar date.  (Second definition, written from the specification's
words, for comparison with `parse_date`.) -/
def strictYMD (s : String) : Bool :=
  match splitDash s.data with
  | [ys, ms, ds] =>
    decide (ys.length = 4) && allDigits ys &&
    decide (ms.length = 2) && allDigits ms &&
    decide (ds.length = 2) && allDigits ds &&
    validDate (digitsVal ys) (digitsVal ms) (digitsVal ds)
  | _ => false

theorem digit_ne_dash {c : Char} (h : c.isDigit = true) : ¬ c = '-' := by
  intro he
  subst he
  exact absurd h (by decide)

theorem digitsVal_one (a : Char) : digitsVal [a] = digitVal a := by
  simp [digitsVal]

theorem digitsVal_two (a b : Char) :
    digitsVal [a, b] = 10 * digitVal a + digitVal b := by
  simp [digitsVal]

theorem digitsVal_four (a b c d : Char) :
    digitsVal [a, b, c, d] =
      1000 * digitVal a + 100 * digitVal b + 10 * digitVal c + digitVal d := by
  simp [digitsVal]
  ring

theorem daysInMonth_le_31 (y m : Nat) : daysInMonth y m ≤ 31 := by
  unfold daysInMonth
  split_ifs <;> norm_num

theorem splitDash_ne_nil (cs : List Char) : splitDash cs ≠ [] := by
  induction cs with
  | nil => simp [splitDash]
  | cons c rest ih =>
    simp only [splitDash]
    split
    · simp
    · split <;> simp

theorem splitDash_append {l : List Char} (r : List Char)
    (hl : ∀ c ∈ l, ¬ c = '-') :
    splitDash (l ++ '-' :: r) = l :: splitDash r := by
  induction l with
  | nil => simp [splitDash]
  | cons c t ih =>
    have hc : ¬ c = '-' := hl c (List.mem_cons_self c t)
    have ht : ∀ x ∈ t, ¬ x = '-' := fun x hx => hl x (List.mem_cons_of_mem c hx)
    simp only [List.cons_append, splitDash, if_neg hc]
    rw [List.append_eq, ih ht]

theorem splitDash_all_digits {l : List Char} (hl : allDigits l = true) :
    splitDash l = [l] := by
  induction l with
  | nil => simp [splitDash]
  | cons c t ih =>
    simp only [allDigits, List.all_cons, Bool.and_eq_true] at hl
    have hc : ¬ c = '-' := digit_ne_dash hl.1
    have ht := ih (by simp [allDigits, hl.2])
    simp only [splitDash, if_neg hc, ht]

theorem joinDash_splitDash (cs : List Char) : joinDash (splitDash cs) = cs := by
  induction cs with
  | nil => simp [splitDash, joinDash]
  | cons c rest ih =>
    simp only [splitDash]
    split
    · rename_i hc
      subst hc
      rcases hS : splitDash rest with _ | ⟨g, gs⟩
      · exact absurd hS (splitDash_ne_nil rest)
      · rw [hS] at ih
        simp only [joinDash, List.nil_append]
        rw [ih]
    · rcases hS : splitDash rest with _ | ⟨g, gs⟩
      · exact absurd hS (splitDash_ne_nil rest)
      · rw [hS] at ih
        rcases gs with _ | ⟨g2, gs2⟩
        · simp only [joinDash] at ih ⊢
          rw [ih]
        · simp only [joinDash, List.cons_append] at ih ⊢
          rw [ih]

theorem parseMonth_some {cs rest : List Char} {m : Nat}
    (h : parseMonth cs = some (m, rest)) :
    (∃ a, cs = [a] ++ rest ∧ a.isDigit = true ∧ m = digitVal a ∧ 1 ≤ m) ∨
    (∃ a b, cs = [a, b] ++ rest ∧ a.isDigit = true ∧ b.isDigit = true ∧
      m = 10 * digitVal a + digitVal b ∧ 1 ≤ m ∧ m ≤ 12) := by
  match cs with
  | [] => simp [parseMonth] at h
  | [c1] =>
    simp only [parseMonth] at h
    split_ifs at h with h1
    simp only [Option.some.injEq, Prod.mk.injEq] at h
    obtain ⟨hm, hr⟩ := h
    exact Or.inl ⟨c1, by simp [← hr], h1.1, hm.symm, hm ▸ h1.2⟩
  | c1 :: c2 :: t2 =>
    simp only [parseMonth] at h
    split_ifs at h with h1 h2 h3
    · simp only [Option.some.injEq, Prod.mk.injEq] at h
      obtain ⟨hm, hr⟩ := h
      exact Or.inr ⟨c1, c2, by simp [← hr], h1.1, h1.2, hm.symm, hm ▸ h2.1,
        hm ▸ h2.2⟩
    · simp only [Option.some.injEq, Prod.mk.injEq] at h
      obtain ⟨hm, hr⟩ := h
      exact Or.inl ⟨c1, by simp [← hr], h3.1, hm.symm, hm ▸ h3.2⟩

theorem parseDay_some {cs : List Char} {d : Nat} (h : parseDay cs = some d) :
    (∃ a, cs = [a] ∧ a.isDigit = true ∧ d = digitVal a ∧ 1 ≤ d) ∨
    (∃ a b, cs = [a, b] ∧ a.isDigit = true ∧ b.isDigit = true ∧
      d = 10 * digitVal a + digitVal b ∧ 1 ≤ d ∧ d ≤ 31) := by
  match cs with
  | [] => simp [parseDay] at h
  | [c1] =>
    simp only [parseDay] at h
    split_ifs at h with h1
    simp only [Option.some.injEq] at h
    exact Or.inl ⟨c1, rfl, h1.1, h.symm, h ▸ h1.2⟩
  | [c1, c2] =>
    simp only [parseDay] at h
    split_ifs at h with h1
    simp only [Option.some.injEq] at h
    exact Or.inr ⟨c1, c2, rfl, h1.1, h1.2.1, h.symm, h ▸ h1.2.2.1, h ▸ h1.2.2.2⟩
  | c1 :: c2 :: c3 :: t => simp [parseDay] at h

theorem parseMonth_eval {ms : List Char} (r : List Char)
    (hd : allDigits ms = true) (hl : ms.length = 1 ∨ ms.length = 2)
    (h1 : 1 ≤ digitsVal ms) (h12 : digitsVal ms ≤ 12) :
    parseMonth (ms ++ '-' :: r) = some (digitsVal ms, '-' :: r) := by
  rcases hl with hl | hl
  · obtain ⟨a, rfl⟩ : ∃ a, ms = [a] := by
      rcases ms with _ | ⟨a, _ | ⟨b, t⟩⟩
      · simp at hl
      · exact ⟨a, rfl⟩
      · simp at hl
    have ha : a.isDigit = true := by simpa [allDigits] using hd
    rw [digitsVal_one] at h1 ⊢
    simp only [List.cons_append, List.nil_append, parseMonth]
    rw [if_neg (fun hcon => absurd hcon.2 (by decide)), if_pos ⟨ha, h1⟩]
  · obtain ⟨a, b, rfl⟩ : ∃ a b, ms = [a, b] := by
      rcases ms with _ | ⟨a, _ | ⟨b, _ | ⟨c, t⟩⟩⟩
      · simp at hl
      · simp at hl
      · exact ⟨a, b, rfl⟩
      · simp at hl
    have ha : a.isDigit = true := by
      have := hd
      simp [allDigits] at this
      exact this.1
    have hb : b.isDigit = true := by
      have := hd
      simp [allDigits] at this
      exact this.2
    rw [digitsVal_two] at h1 h12 ⊢
    simp only [List.cons_append, List.nil_append, parseMonth]
    rw [if_pos ⟨ha, hb⟩, if_pos ⟨h1, h12⟩]

theorem parseDay_eval {ds : List Char}
    (hd : allDigits ds = true) (hl : ds.length = 1 ∨ ds.length = 2)
    (h1 : 1 ≤ digitsVal ds) (h31 : digitsVal ds ≤ 31) :
    parseDay ds = some (digitsVal ds) := by
  rcases hl with hl | hl
  · obtain ⟨a, rfl⟩ : ∃ a, ds = [a] := by
      rcases ds with _ | ⟨a, _ | ⟨b, t⟩⟩
      · simp at hl
      · exact ⟨a, rfl⟩
      · simp at hl
    have ha : a.isDigit = true := by simpa [allDigits] using hd
    rw [digitsVal_one] at h1 ⊢
    simp only [parseDay]
    rw [if_pos ⟨ha, h1⟩]
  · obtain ⟨a, b, rfl⟩ : ∃ a b, ds = [a, b] := by
      rcases ds with _ | ⟨a, _ | ⟨b, _ | ⟨c, t⟩⟩⟩
      · simp at hl
      · simp at hl
      · exact ⟨a, b, rfl⟩
      · simp at hl
    have ha : a.isDigit = true := by
      have := hd
      simp [allDigits] at this
      exact this.1
    have hb : b.isDigit = true := by
      have := hd
      simp [allDigits] at this
      exact this.2
    rw [digitsVal_two] at h1 h31 ⊢
    simp only [parseDay]
    rw [if_pos ⟨ha, hb, h1, h31⟩]

theorem lenientChars_build {c1 c2 c3 c4 : Char} {ms ds : List Char}
    (h1 : c1.isDigit = true) (h2 : c2.isDigit = true) (h3 : c3.isDigit = true)
    (h4 : c4.isDigit = true)
    (hms : allDigits ms = true) (hds : allDigits ds = true)
    (hmsl : ms.length = 1 ∨ ms.length = 2) (hdsl : ds.length = 1 ∨ ds.length = 2)
    (hv : validDate (digitsVal [c1, c2, c3, c4]) (digitsVal ms) (digitsVal ds)
      = true) :
    lenientChars ([c1, c2, c3, c4] ++ '-' :: (ms ++ '-' :: ds)) = true := by
  have hys : ∀ c ∈ [c1, c2, c3, c4], ¬ c = '-' := by
    intro c hc
    simp only [List.mem_cons, List.not_mem_nil, or_false] at hc
    rcases hc with rfl | rfl | rfl | rfl
    exacts [digit_ne_dash h1, digit_ne_dash h2, digit_ne_dash h3,
      digit_ne_dash h4]
  have hmsd : ∀ c ∈ ms, ¬ c = '-' := by
    intro c hc
    exact digit_ne_dash (by
      have := hms
      simp only [allDigits, List.all_eq_true] at this
      exact this c hc)
  unfold lenientChars
  rw [splitDash_append _ hys, splitDash_append _ hmsd, splitDash_all_digits hds]
  simp only [Bool.and_eq_true, Bool.or_eq_true, decide_eq_true_eq]
  refine ⟨⟨⟨⟨⟨⟨rfl, ?_⟩, hmsl⟩, hms⟩, hdsl⟩, hds⟩, hv⟩
  simp [allDigits, h1, h2, h3, h4]

theorem lenient_of_parse {cs : List Char} {y m d : Nat}
    (hp : parseYMD cs = some (y, m, d)) (hv : validDate y m d = true) :
    lenientChars cs = true := by
  unfold parseYMD at hp
  split at hp
  · rename_i c1 c2 c3 c4 rest
    split_ifs at hp with hdig
    · split at hp
      · rename_i m' rest2 heqM
        split at hp
        · rename_i d' heqD
          simp only [Option.some.injEq, Prod.mk.injEq] at hp
          obtain ⟨hy, hm, hd⟩ := hp
          obtain ⟨ms, hrest, hmsd, hmsl, hmv⟩ :
              ∃ ms, rest = ms ++ '-' :: rest2 ∧ allDigits ms = true ∧
                (ms.length = 1 ∨ ms.length = 2) ∧ digitsVal ms = m' := by
            rcases parseMonth_some heqM with ⟨a, ha1, ha2, ha3, _⟩ |
                ⟨a, b, hb1, hb2, hb3, hb4, _, _⟩
            · exact ⟨[a], ha1, by simp [allDigits, ha2], Or.inl rfl,
                by rw [digitsVal_one]; exact ha3.symm⟩
            · exact ⟨[a, b], hb1, by simp [allDigits, hb2, hb3], Or.inr rfl,
                by rw [digitsVal_two]; exact hb4.symm⟩
          obtain ⟨ds, hds, hdsd, hdsl, hdv⟩ :
              ∃ ds, rest2 = ds ∧ allDigits ds = true ∧
                (ds.length = 1 ∨ ds.length = 2) ∧ digitsVal ds = d' := by
            rcases parseDay_some heqD with ⟨p, hp1, hp2, hp3, _⟩ |
                ⟨p, q, hq1, hq2, hq3, hq4, _, _⟩
            · exact ⟨[p], hp1, by simp [allDigits, hp2], Or.inl rfl,
                by rw [digitsVal_one]; exact hp3.symm⟩
            · exact ⟨[p, q], hq1, by simp [allDigits, hq2, hq3], Or.inr rfl,
                by rw [digitsVal_two]; exact hq4.symm⟩
          subst hds
          subst hrest
          rw [show (c1 :: c2 :: c3 :: c4 :: '-' :: (ms ++ '-' :: rest2))
            = [c1, c2, c3, c4] ++ '-' :: (ms ++ '-' :: rest2) from rfl]
          apply lenientChars_build hdig.1 hdig.2.1 hdig.2.2.1 hdig.2.2.2
            hmsd hdsd hmsl hdsl
          rw [digitsVal_four, hy, hmv, hm, hdv, hd]
          exact hv
        · simp at hp
      · simp at hp
  · simp at hp

theorem parse_of_lenient {cs : List Char} (h : lenientChars cs = true) :
    ∃ y m d, parseYMD cs = some (y, m, d) ∧ validDate y m d = true := by
  unfold lenientChars at h
  split at h
  · rename_i ys ms ds heq
    simp only [Bool.and_eq_true, Bool.or_eq_true, decide_eq_true_eq] at h
    obtain ⟨⟨⟨⟨⟨⟨hy4, hysd⟩, hmsl⟩, hmsd⟩, hdsl⟩, hdsd⟩, hv⟩ := h
    have hcs : cs = ys ++ '-' :: (ms ++ '-' :: ds) := by
      have hj := joinDash_splitDash cs
      rw [heq] at hj
      simpa [joinDash] using hj.symm
    obtain ⟨c1, c2, c3, c4, hys⟩ : ∃ a b c d, ys = [a, b, c, d] := by
      rcases ys with _ | ⟨a, _ | ⟨b, _ | ⟨c, _ | ⟨d, _ | ⟨e, t⟩⟩⟩⟩⟩
      · simp at hy4
      · simp at hy4
      · simp at hy4
      · simp at hy4
      · exact ⟨a, b, c, d, rfl⟩
      · simp only [List.length_cons] at hy4
        omega
    subst hys
    have hdigs : c1.isDigit = true ∧ c2.isDigit = true ∧ c3.isDigit = true ∧
        c4.isDigit = true := by
      simpa [allDigits] using hysd
    have hv' := hv
    simp only [validDate, decide_eq_true_eq] at hv'
    refine ⟨digitsVal [c1, c2, c3, c4], digitsVal ms, digitsVal ds, ?_, hv⟩
    rw [hcs]
    rw [show ([c1, c2, c3, c4] ++ '-' :: (ms ++ '-' :: ds))
      = c1 :: c2 :: c3 :: c4 :: '-' :: (ms ++ '-' :: ds) from rfl]
    simp only [parseYMD]
    rw [if_pos hdigs]
    rw [parseMonth_eval _ hmsd hmsl hv'.2.2.1 hv'.2.2.2.1]
    simp [parseDay_eval hdsd hdsl hv'.2.2.2.2.1
      (le_trans hv'.2.2.2.2.2 (daysInMonth_le_31 _ _)), digitsVal_four]
  · simp at h

theorem strptime_isSome_eq_lenient (s : String) :
    (strptime_date s).isSome = lenientYMD s := by
  unfold strptime_date lenientYMD
  rcases hp : parseYMD s.data with _ | ⟨y, m, d⟩
  · cases hl : lenientChars s.data
    · rfl
    · obtain ⟨y, m, d, hp', _⟩ := parse_of_lenient hl
      rw [hp'] at hp
      simp at hp
  · cases hv : validDate y m d
    · cases hl : lenientChars s.data
      · simp [hv]
      · obtain ⟨y', m', d', hp', hv'⟩ := parse_of_lenient hl
        rw [hp] at hp'
        simp only [Option.some.injEq, Prod.mk.injEq] at hp'
        obtain ⟨rfl, rfl, rfl⟩ := hp'
        rw [hv] at hv'
        simp at hv'
    · rw [lenient_of_parse hp hv]
      simp [hv]

/-- **C4 counterexample**: `"2025-1-5"` does not match the strict zero-padded
`YYYY-MM-DD` shape, yet `parse_date` accepts it (as January 5th, 2025) —
`strptime`'s `%m` and `%d` also accept single digits — refuting the claim
that `parse_date` fails on every string outside the strict format. -/
theorem claim4_counterexample :
    parse_date "2025-1-5" = Except.ok ⟨2025, 1, 5⟩ ∧
    strictYMD "2025-1-5" = false := by
  exact ⟨rfl, rfl⟩

/-- **C4 amended**: `parse_date` succeeds exactly on the strings of the form
year of exactly four digits, dash, month of one or two digits, dash, day of
one or two digits, denoting a valid calendar date (zero-padding of month and
day is optional); every other string — wrong separators, non-numeric
components, wrong field count, out-of-range day or month — fails with a
`ValueError` carrying the offending string. -/
theorem claim4_parse_date_spec (s : String) :
    ((∃ dt : Date, parse_date s = Except.ok dt) ↔ lenientYMD s = true) ∧
    (lenientYMD s = false →
      parse_date s =
        Except.error ("Invalid date format: " ++ s ++ ", expected YYYY-MM-DD")) := by
  have hbase := strptime_isSome_eq_lenient s
  constructor
  · constructor
    · rintro ⟨dt, hdt⟩
      unfold parse_date at hdt
      rcases hs : strptime_date s with _ | d0
      · rw [hs] at hdt
        simp at hdt
      · rw [← hbase, hs]
        rfl
    · intro hl
      rw [← hbase] at hl
      rcases hs : strptime_date s with _ | d0
      · rw [hs] at hl
        simp at hl
      · refine ⟨d0, ?_⟩
        unfold parse_date
        rw [hs]
  · intro hl
    rw [← hbase] at hl
    rcases hs : strptime_date s with _ | d0
    · unfold parse_date
      rw [hs]
    · rw [hs] at hl
      simp at hl

/-- Witness for the amended C4: the specification's three malformed examples
all fail with the error carrying the offending string, and a well-formed
input parses. -/
theorem claim4_parse_date_spec_witness :
    parse_date "2025/08/10"
      = Except.error "Invalid date format: 2025/08/10, expected YYYY-MM-DD" ∧
    parse_date "10-08-2025"
      = Except.error "Invalid date format: 10-08-2025, expected YYYY-MM-DD" ∧
    parse_date "not-a-date"
      = Except.error "Invalid date format: not-a-date, expected YYYY-MM-DD" ∧
    (∃ dt : Date, parse_date "2025-08-10" = Except.ok dt) := by
  refine ⟨?_, ?_, ?_, ?_⟩
  · exact ((claim4_parse_date_spec "2025/08/10").2 (by rfl)).trans (by rfl)
  · exact ((claim4_parse_date_spec "10-08-2025").2 (by rfl)).trans (by rfl)
  · exact ((claim4_parse_date_spec "not-a-date").2 (by rfl)).trans (by rfl)
  · exact (claim4_parse_date_spec "2025-08-10").1.mpr (by rfl)

/-! ## Arithmetic facts about the calendar embedding -/

theorem daysBeforeYear_succ {y : Nat} (hy : 1 ≤ y) :
    daysBeforeYear (y + 1) = daysBeforeYear y + (daysInYear y : Int) := by
  obtain ⟨n, rfl⟩ : ∃ n, y = n + 1 := ⟨y - 1, by omega⟩
  unfold daysBeforeYear daysInYear isLeap
  simp only [Nat.add_sub_cancel, decide_eq_true_eq]
  by_cases hleap : ((n + 1) % 4 = 0 ∧ (¬(n + 1) % 100 = 0 ∨ (n + 1) % 400 = 0))
  · rw [if_pos hleap]
    obtain ⟨ha, hb⟩ := hleap
    rcases hb with hb | hb <;> omega
  · rw [if_neg hleap]
    push_neg at hleap
    by_cases h4 : (n + 1) % 4 = 0
    · obtain ⟨hb, hc⟩ := hleap h4
      omega
    · omega

theorem daysBeforeYear_mono {a b : Nat} (ha : 1 ≤ a) (hab : a ≤ b) :
    daysBeforeYear a ≤ daysBeforeYear b := by
  induction b, hab using Nat.le_induction with
  | base => exact le_refl _
  | succ k hk ih =>
    have h1k : 1 ≤ k := le_trans ha hk
    rw [daysBeforeYear_succ h1k]
    have hpos : (0 : Int) ≤ (daysInYear k : Int) := Int.ofNat_nonneg _
    linarith

theorem daysBeforeMonth_add_le {y m d : Nat} (hm1 : 1 ≤ m) (hm12 : m ≤ 12)
    (hd : d ≤ daysInMonth y m) : daysBeforeMonth y m + d ≤ daysInYear y := by
  interval_cases m <;> cases hL : isLeap y <;>
    simp [daysBeforeMonth, daysInMonth, daysInYear, hL] at hd ⊢ <;> omega

theorem daysBeforeMonth_mono {y m1 m2 : Nat} (h1 : 1 ≤ m1) (hlt : m1 < m2)
    (h12 : m2 ≤ 12) :
    daysBeforeMonth y m1 + daysInMonth y m1 ≤ daysBeforeMonth y m2 := by
  have h11 : m1 ≤ 11 := by omega
  interval_cases m1 <;> interval_cases m2 <;> cases hL : isLeap y <;>
    simp [daysBeforeMonth, daysInMonth, hL]

theorem toOrdinal_lt_of_dateLt {a b : Date}
    (hva : validDate a.year a.month a.day = true)
    (hvb : validDate b.year b.month b.day = true)
    (hab : dateLt a b) : toOrdinal a < toOrdinal b := by
  rcases a with ⟨ya, ma, da⟩
  rcases b with ⟨yb, mb, db⟩
  simp only [validDate, decide_eq_true_eq] at hva hvb
  obtain ⟨hya1, hya2, hma1, hma2, hda1, hda2⟩ := hva
  obtain ⟨hyb1, hyb2, hmb1, hmb2, hdb1, hdb2⟩ := hvb
  unfold toOrdinal dateLt at *
  simp only at hab ⊢
  rcases hab with hy | ⟨hyeq, hm | ⟨hmeq, hd⟩⟩
  · have hbound : (daysBeforeMonth ya ma : Int) + (da : Int) ≤ daysInYear ya := by
      exact_mod_cast daysBeforeMonth_add_le hma1 hma2 hda2
    have hsucc := daysBeforeYear_succ hya1
    have hmono := daysBeforeYear_mono (show 1 ≤ ya + 1 by omega)
      (show ya + 1 ≤ yb by omega)
    have hdbm0 : (0 : Int) ≤ (daysBeforeMonth yb mb : Int) := Int.ofNat_nonneg _
    have hdb1' : (1 : Int) ≤ (db : Int) := by exact_mod_cast hdb1
    linarith
  · subst hyeq
    have hstep : (daysBeforeMonth ya ma : Int) + (daysInMonth ya ma : Int)
        ≤ (daysBeforeMonth ya mb : Int) := by
      exact_mod_cast daysBeforeMonth_mono hma1 hm hmb2
    have hda2' : (da : Int) ≤ (daysInMonth ya ma : Int) := by exact_mod_cast hda2
    have hdb1' : (1 : Int) ≤ (db : Int) := by exact_mod_cast hdb1
    linarith
  · subst hyeq
    subst hmeq
    have : (da : Int) < (db : Int) := by exact_mod_cast hd
    linarith

theorem parse_date_valid {s : String} {dt : Date}
    (h : parse_date s = Except.ok dt) :
    validDate dt.year dt.month dt.day = true := by
  unfold parse_date at h
  rcases hs : strptime_date s with _ | d0 <;> rw [hs] at h
  · simp at h
  · simp only [Except.ok.injEq] at h
    subst h
    unfold strptime_date at hs
    split at hs
    · rename_i y m d heq
      split_ifs at hs with hv
      simp only [Option.some.injEq] at hs
      rw [← hs]
      exact hv
    · simp at hs

/-- **C5**: for a well-formed date string `days_since_last_active` returns the
signed ordinal-day difference between `today` and the parsed date (negative
when the parsed date is after `today` in the calendar order), and for a
malformed string it propagates the parse error unchanged. -/
theorem claim5_days_since (today : Date) (s : String) :
    (∀ dt : Date, parse_date s = Except.ok dt →
      days_since_last_active today s
          = Except.ok (toOrdinal today - toOrdinal dt) ∧
      (validDate today.year today.month today.day = true → dateLt today dt →
        toOrdinal today - toOrdinal dt < 0)) ∧
    (∀ e : String, parse_date s = Except.error e →
      days_since_last_active today s = Except.error e) := by
  constructor
  · intro dt hdt
    constructor
    · unfold days_since_last_active
      rw [hdt]
    · intro hvt hlt
      have hvd : validDate dt.year dt.month dt.day = true := parse_date_valid hdt
      exact sub_neg.mpr (toOrdinal_lt_of_dateLt hvt hvd hlt)
  · intro e he
    unfold days_since_last_active
    rw [he]

/-- Witness for C5: with `today = 2025-08-12`, the input `"2025-08-10"` gives
`2`, the future date `"2025-08-20"` gives a negative count, and a malformed
input propagates the error. -/
theorem claim5_days_since_witness :
    days_since_last_active ⟨2025, 8, 12⟩ "2025-08-10" = Except.ok 2 ∧
    (∃ n : Int, days_since_last_active ⟨2025, 8, 12⟩ "2025-08-20"
        = Except.ok n ∧ n < 0) ∧
    days_since_last_active ⟨2025, 8, 12⟩ "not-a-date"
      = Except.error "Invalid date format: not-a-date, expected YYYY-MM-DD" := by
  refine ⟨?_, ?_, ?_⟩
  · have h := ((claim5_days_since ⟨2025, 8, 12⟩ "2025-08-10").1
      ⟨2025, 8, 10⟩ (by rfl)).1
    rw [h]
    rfl
  · have h := (claim5_days_since ⟨2025, 8, 12⟩ "2025-08-20").1
      ⟨2025, 8, 20⟩ (by rfl)
    refine ⟨toOrdinal ⟨2025, 8, 12⟩ - toOrdinal ⟨2025, 8, 20⟩, h.1, ?_⟩
    exact h.2 (by decide) (Or.inr ⟨rfl, Or.inr ⟨rfl, by norm_num⟩⟩)
  · exact (claim5_days_since ⟨2025, 8, 12⟩ "not-a-date").2 _ (by rfl)

/-! ## `app/main.py` — the `GET /recommend/<user_id>` endpoint

The module-level table `users` (built from the CSV at startup) and the Kumo
client's prediction are explicit parameters.  `users.get(user_id)` returns
`None` for a missing key, and the handler's `if not user_data` treats both
`None` and an empty dict as absent; an exception escaping `recommend` would
surface as a server error, modelled by `HttpResult.exn`. -/

/-- A Flask response: a status code with a JSON body, or an uncaught
exception. -/
inductive HttpResult where
  | resp (status : Nat) (body : List (String × Value))
  | exn (e : String)
deriving DecidableEq

/-- The `recommend` route handler from `app/main.py`. -/
def recommend_endpoint (users : List (Int × List (String × Value)))
    (prediction : List (String × Value)) (user_id : Int) : HttpResult :=
  match List.lookup user_id users with
  | none => HttpResult.resp 404 [("error", Value.str "User not found")]
  | some user_data =>
    if user_data = [] then
      HttpResult.resp 404 [("error", Value.str "User not found")]
    else
      match recommend prediction user_data with
      | Except.ok r => HttpResult.resp 200 r
      | Except.error e => HttpResult.exn e

/-- **C8**: with a table whose stored records are the non-empty CSV rows
(each carrying an integer `user_id`) and the mock client's two-field
prediction, the endpoint answers 404 with `{"error": "User not found"}`
exactly for identifiers absent from the table, and 200 with a JSON object
`user_id`/`action`/`score` (integer, string, number) for present ones. -/
theorem claim8_endpoint (users : List (Int × List (String × Value)))
    (prediction : List (String × Value)) (uid : Int) (q : ℚ) (act : String)
    (hrec : ∀ r, List.lookup uid users = some r →
      r ≠ [] ∧ ∃ i : Int, List.lookup "user_id" r = some (Value.int i))
    (hp : List.lookup "engagement_score" prediction = some (Value.num q))
    (ha : List.lookup "recommended_action" prediction = some (Value.str act)) :
    (List.lookup uid users = none →
      recommend_endpoint users prediction uid
        = HttpResult.resp 404 [("error", Value.str "User not found")]) ∧
    (∀ r, List.lookup uid users = some r →
      ∃ (i : Int) (a : String),
        recommend_endpoint users prediction uid
          = HttpResult.resp 200
              [("user_id", Value.int i), ("action", Value.str a),
               ("score", Value.num q)]) := by
  constructor
  · intro hnone
    unfold recommend_endpoint
    rw [hnone]
  · intro r hsome
    obtain ⟨hne, i, hi⟩ := hrec r hsome
    refine ⟨i, if 7/10 < q then act else "send_message", ?_⟩
    unfold recommend_endpoint
    rw [hsome]
    try dsimp only
    rw [if_neg hne]
    unfold recommend dictGet valGt
    rw [hp, hi]
    by_cases h : (7:ℚ)/10 < q
    · simp [h, ha]
    · simp [h]

/-- Witness for C8 on a concrete one-row table: a present identifier answers
200 with the three fields, an absent one answers 404. -/
theorem claim8_endpoint_witness :
    (∃ (i : Int) (a : String),
      recommend_endpoint
          [(1, [("user_id", Value.int 1), ("age", Value.int 25)])]
          [("engagement_score", Value.num (9/10)),
           ("recommended_action", Value.str "offer_discount")] 1
        = HttpResult.resp 200
            [("user_id", Value.int i), ("action", Value.str a),
             ("score", Value.num (9/10))]) ∧
    recommend_endpoint
        [(1, [("user_id", Value.int 1), ("age", Value.int 25)])]
        [("engagement_score", Value.num (9/10)),
         ("recommended_action", Value.str "offer_discount")] 2
      = HttpResult.resp 404 [("error", Value.str "User not found")] := by
  constructor
  · exact (claim8_endpoint
      [(1, [("user_id", Value.int 1), ("age", Value.int 25)])]
      [("engagement_score", Value.num (9/10)),
       ("recommended_action", Value.str "offer_discount")] 1 (9/10)
      "offer_discount"
      (fun r hr => by
        simp only [List.lookup] at hr
        norm_num at hr
        subst hr
        exact ⟨by simp, 1, rfl⟩)
      rfl rfl).2 _ rfl
  · exact (claim8_endpoint
      [(1, [("user_id", Value.int 1), ("age", Value.int 25)])]
      [("engagement_score", Value.num (9/10)),
       ("recommended_action", Value.str "offer_discount")] 2 (9/10)
      "offer_discount"
      (fun r hr => by simp [List.lookup] at hr)
      rfl rfl).1 rfl
